import Mathlib

/-!
Verification of the duplicate-file cleaner (`duplicated.py`).

The script scans a tree, groups files by size, narrows the groups with a
cheap head/tail fingerprint (BLAKE2b-128 over the first and last `PARTIAL`
bytes), confirms duplicates with a full-content BLAKE2b-256 hash, keeps the
first member of each confirmed group, disposes of the rest (delete or move
to a quarantine directory, gated by `--apply`), writes a CSV report, and
finally removes empty directories.

Embedding conventions:
  - A regular file is a `File`: its path and its byte content (`List Nat`).
    The script passes `Path` objects and re-reads bytes from disk; the tree
    is immutable while the hashing stages run, so carrying the content with
    the path is equivalent.
  - The two BLAKE2b digests are abstract parameters `hq`/`hf` of type
    `List Nat → α`: hashlib's incremental `update` calls amount to one
    digest of the concatenated bytes.  Claims that need collision
    resistance take injectivity of `hf` as a hypothesis.
  - Python `dict` insertion (`setdefault(k, []).append(x)`) is modelled by
    `insertGroup` on an association list, preserving the dict's insertion
    order and the per-bucket append order.
  - `ProcessPoolExecutor`/`as_completed` (`with_pool`) returns the results
    of `map f` in completion order: an arbitrary permutation of the
    submitted order.  Run-level theorems therefore quantify over any
    result list that is a permutation of the submitted one.
  - Per-file exceptions (stat/open/read in `group_by_size`, `quick_hash`,
    `full_hash`) are modelled by a path predicate `ioErr`; a disposal
    exception (`unlink`/`shutil.move`) by a predicate `fails`.
  - The mutated filesystem is `FS`: an association list from paths to
    contents plus the list of directories created by `ensure_dir`.
    `shutil.move` onto an existing destination path is `os.rename` on the
    same POSIX filesystem: it silently replaces the destination.
  - `os.walk(root, topdown=False)` (in `remove_empty_dirs`) is modelled on
    a directory tree `FSTree`: children are visited before the parent, and
    each directory's `dirs`/`files` lists are the snapshot taken when the
    directory was scanned.
-/

namespace DupClean

/-- A regular file of the scanned tree: path and byte content. -/
structure File where
  path : String
  content : List Nat
  deriving DecidableEq, Repr

/-- Model of the constant `PARTIAL = 4096` (bytes read at the start and at
the end of a file for the quick hash). -/
def partBytes : Nat := 4096

/-! ## Python dict grouping (`setdefault(k, []).append(x)`) -/

/-- One `m.setdefault(k, []).append(x)` step on an insertion-ordered dict,
modelled as an association list from keys to buckets. -/
def insertGroup {κ α : Type} [DecidableEq κ] : List (κ × List α) → κ → α → List (κ × List α)
  | [], k, x => [(k, [x])]
  | (k', xs) :: rest, k, x =>
      if k = k' then (k', xs ++ [x]) :: rest else (k', xs) :: insertGroup rest k x

/-- Building a grouping dict by inserting key/value pairs in order. -/
def foldInsert {κ α : Type} [DecidableEq κ] (l : List (κ × α)) : List (κ × List α) :=
  l.foldl (fun m kv => insertGroup m kv.1 kv.2) []

/-- The bucket stored under key `k` (`[]` when the key is absent). -/
def lookupGroup {κ α : Type} [DecidableEq κ] : List (κ × List α) → κ → List α
  | [], _ => []
  | e :: rest, k => if e.1 = k then e.2 else lookupGroup rest k

/-- Model of `[v for v in m.values() if len(v) > 1]`. -/
def bigBuckets {κ α : Type} (m : List (κ × List α)) : List (List α) :=
  (m.map (fun e => e.2)).filter (fun g => decide (1 < g.length))

/-! ## Hash helpers (`quick_hash`, `full_hash`) -/

/-- The bytes fed to the quick hash of a file with content `c`
(`duplicated.py:41`): `h.update(f.read(PARTIAL))`, then, when
`size > PARTIAL * 2`, `f.seek(-PARTIAL, os.SEEK_END)` followed by
`h.update(f.read(PARTIAL))`, i.e. the last `PARTIAL` bytes. -/
def qhInput (c : List Nat) : List Nat :=
  c.take partBytes ++ (if partBytes * 2 < c.length then c.drop (c.length - partBytes) else [])

/-- Model of `quick_hash` (`duplicated.py:41`): stats the file for its size
and digests `qhInput`; on an exception (modelled by `ioErr`) the worker
returns a non-empty error string, modelled as `none`. -/
def quick_hash {α : Type} (hq : List Nat → α) (ioErr : String → Bool) (f : File) :
    File × Option (Nat × α) :=
  if ioErr f.path then (f, none) else (f, some (f.content.length, hq (qhInput f.content)))

/-- Model of `full_hash` (`duplicated.py:56`): digests the whole content,
read in 1 MiB chunks whose concatenation is the content itself. -/
def full_hash {β : Type} (hf : List Nat → β) (ioErr : String → Bool) (f : File) :
    File × Option β :=
  if ioErr f.path then (f, none) else (f, some (hf f.content))

/-! ## Size grouping and the two hash maps (`group_by_size`, `build_hash_maps`) -/

/-- Model of `group_by_size` (`duplicated.py:76`): group by `stat().st_size`
(files whose stat raises are logged and dropped), keep buckets of two or
more. -/
def group_by_size (ioErr : String → Bool) (paths : List File) : List (List File) :=
  bigBuckets (foldInsert (paths.filterMap (fun p =>
    if ioErr p.path then none else some (p.content.length, p))))

/-- The `(size, quick-hash)` key/file pairs inserted into `qmap`
(`duplicated.py:102`), skipping errored results. -/
def qKVs {α : Type} (qres : List (File × Option (Nat × α))) : List ((Nat × α) × File) :=
  qres.filterMap (fun r => r.2.map (fun k => (k, r.1)))

/-- The `qmap` dict of `build_hash_maps`, built from the quick-hash results
in their completion order `qres`. -/
def buildQMap {α : Type} [DecidableEq α] (qres : List (File × Option (Nat × α))) :
    List ((Nat × α) × List File) :=
  foldInsert (qKVs qres)

/-- Model of `candidates` (`duplicated.py:109`): quick-hash buckets with two
or more members. -/
def candidates {α : Type} [DecidableEq α] (qres : List (File × Option (Nat × α))) :
    List (List File) :=
  bigBuckets (buildQMap qres)

/-- The `full-hash/file` pairs inserted into `fmap` (`duplicated.py:114`),
skipping errored results. -/
def fKVs {β : Type} (fres : List (File × Option β)) : List (β × File) :=
  fres.filterMap (fun r => r.2.map (fun h => (h, r.1)))

/-- The `fmap` dict of `build_hash_maps`, built from the full-hash results
in their completion order `fres`. -/
def buildFMap {β : Type} [DecidableEq β] (fres : List (File × Option β)) :
    List (β × List File) :=
  foldInsert (fKVs fres)

/-- Model of `duplicates` (`duplicated.py:183`): full-hash buckets with two
or more members, i.e. the confirmed DuplicateSets. -/
def duplicatesOf {β : Type} [DecidableEq β] (fres : List (File × Option β)) :
    List (List File) :=
  bigBuckets (buildFMap fres)

/-- The quick-hash work list in submission order: every member of every size
group, as submitted to the pool in `build_hash_maps` (`duplicated.py:100`). -/
def quickSubmitted {α : Type} (hq : List Nat → α) (ioErr : String → Bool)
    (paths : List File) : List (File × Option (Nat × α)) :=
  ((group_by_size ioErr paths).flatten).map (quick_hash hq ioErr)

/-- The full-hash work list in submission order: every member of every
candidate bucket, as submitted to the pool in `build_hash_maps`
(`duplicated.py:112`). -/
def fullSubmitted {α β : Type} [DecidableEq α] (hf : List Nat → β) (ioErr : String → Bool)
    (qres : List (File × Option (Nat × α))) : List (File × Option β) :=
  ((candidates qres).flatten).map (full_hash hf ioErr)

/-! ## The mutable filesystem -/

/-- First entry stored under path `p`, i.e. the file's content. -/
def lookupFile : List (String × List Nat) → String → Option (List Nat)
  | [], _ => none
  | e :: rest, p => if e.1 = p then some e.2 else lookupFile rest p

/-- The mutable state: regular files (path to content) and the directories
created by `ensure_dir`. -/
structure FS where
  files : List (String × List Nat)
  dirs : List String
  deriving DecidableEq, Repr

/-- Content of the file at `p`, `none` when no such file exists. -/
def fsLookup (fs : FS) (p : String) : Option (List Nat) :=
  lookupFile fs.files p

/-- Model of `Path.unlink`: the file at `p` disappears. -/
def fsRemove (fs : FS) (p : String) : FS :=
  { fs with files := fs.files.filter (fun e => !decide (e.1 = p)) }

/-- Writing content `c` at path `p`, replacing whatever was there. -/
def fsSet (fs : FS) (p : String) (c : List Nat) : FS :=
  { fs with files := (fs.files.filter (fun e => !decide (e.1 = p))) ++ [(p, c)] }

/-- Model of `shutil.move src dst` on one POSIX filesystem: `os.rename`,
which silently replaces an existing regular file at `dst`.  A missing
source raises, which the caller catches: no state change. -/
def fsMove (fs : FS) (src dst : String) : FS :=
  match fsLookup fs src with
  | none => fs
  | some c => fsSet (fsRemove fs src) dst c

/-- Model of `ensure_dir` (`duplicated.py:125`): `mkdir(parents=True,
exist_ok=True)`, an idempotent directory creation. -/
def ensure_dir (fs : FS) (d : String) : FS :=
  { fs with dirs := if d ∈ fs.dirs then fs.dirs else fs.dirs ++ [d] }

/-- Model of `Path.name` (the `v.name` used for the quarantine destination):
the final path component, after the last slash. -/
def baseName (p : String) : String :=
  ⟨(p.data.reverse.takeWhile (fun c => !(c = '/'))).reverse⟩

/-! ## Disposal, reporting, directory reclamation, and `main` -/

/-- Model of `victims = group[1:]` (`duplicated.py:141`): keep the first
member. -/
def victims (group : List File) : List File := group.drop 1

/-- Model of `kept = str(group[0])` (`duplicated.py:188`): the first member
of a confirmed group is the keeper. -/
def keeperOf (group : List File) : File := group.headD ⟨"", []⟩

/-- One iteration of the victim loop of `delete_or_quarantine`
(`duplicated.py:142`): under `--apply`, move to `quarantine_dir / v.name`
(after `ensure_dir`) or unlink; without `--apply` the body only logs.  An
exception (modelled by `fails`) is caught and logged: no state change. -/
def disposeStep (apply : Bool) (quarantine_dir : Option String) (fails : String → Bool)
    (fs : FS) (v : File) : FS :=
  if fails v.path then fs
  else if apply then
    match quarantine_dir with
    | some q => fsMove (ensure_dir fs q) v.path (q ++ "/" ++ baseName v.path)
    | none => fsRemove fs v.path
  else fs

/-- Model of `delete_or_quarantine` (`duplicated.py:140`): run the victim
loop over `group[1:]`. -/
def delete_or_quarantine (group : List File) (apply : Bool) (quarantine_dir : Option String)
    (fails : String → Bool) (fs : FS) : FS :=
  (victims group).foldl (disposeStep apply quarantine_dir fails) fs

/-- A report row (`duplicated.py:191`) without its wall-clock timestamp:
action, original (kept) path, duplicate (victim) path. -/
abbrev Row := String × String × String

/-- Model of the report loop of `main` (`duplicated.py:186`): for every
group, one row per victim; the action is `deleted` under `--apply` and
`will‑delete` otherwise (the strings written by `duplicated.py:190`). -/
def reportRows (dups : List (List File)) (apply : Bool) : List Row :=
  (dups.map (fun g => (victims g).map (fun dup =>
    ((if apply then "deleted" else "will‑delete"), (keeperOf g).path, dup.path)))).flatten

/-- Model of the disposal loop of `main` (`duplicated.py:192`): dispose of
every confirmed group in turn. -/
def runDisposal (dups : List (List File)) (apply : Bool) (quarantine_dir : Option String)
    (fails : String → Bool) (fs : FS) : FS :=
  dups.foldl (fun fs g => delete_or_quarantine g apply quarantine_dir fails fs) fs

/-- A directory tree: used to model `remove_empty_dirs`, which acts on
directories rather than on the flat file map. -/
inductive FSTree where
  | file : String → FSTree
  | dir : String → List FSTree → FSTree
  deriving Repr

/-- Model of `remove_empty_dirs` (`duplicated.py:129`).
`os.walk(root, topdown=False)` scans each directory before recursing, so a
directory's `dirs`/`files` lists are the snapshot taken at scan time;
children are visited (and possibly removed) before their parent is; `rmdir`
is attempted exactly on directories whose snapshot shows neither
subdirectories nor files, and then succeeds because such a directory is
still empty.  `none` means the directory itself was removed; a plain file
is never touched. -/
def remove_empty_dirs : FSTree → Option FSTree
  | .file n => some (.file n)
  | .dir n cs =>
      if cs.isEmpty then none
      else some (.dir n (cs.attach.filterMap (fun c => remove_empty_dirs c.1)))
decreasing_by
  have h := List.sizeOf_lt_of_mem c.2
  simp only [FSTree.dir.sizeOf_spec]
  omega

/-- Model of the tail of `main` (`duplicated.py:186`-`198`) for a given list
of confirmed duplicate groups: the report rows, the disposal of every
group, and `remove_empty_dirs(ROOT_DIR)` run only under `--apply`.  The
row for a victim is appended before the group is disposed of, and rows do
not depend on the filesystem, so building all rows separately is
equivalent to the interleaved loop of the script. -/
def mainRun (dups : List (List File)) (apply : Bool) (quarantine_dir : Option String)
    (fails : String → Bool) (fs : FS) (tree : FSTree) :
    FS × Option FSTree × List Row :=
  (runDisposal dups apply quarantine_dir fails fs,
   if apply then remove_empty_dirs tree else some tree,
   reportRows dups apply)

/-! ## Lemmas about the insertion-ordered dict -/

/-- Inserting under key `k` appends to `k`'s bucket and leaves every other
bucket unchanged. -/
theorem lookupGroup_insertGroup {κ α : Type} [DecidableEq κ]
    (m : List (κ × List α)) (k j : κ) (x : α) :
    lookupGroup (insertGroup m k x) j =
      if k = j then lookupGroup m j ++ [x] else lookupGroup m j := by
  induction m with
  | nil =>
      by_cases h : k = j <;> simp [insertGroup, lookupGroup, h]
  | cons e rest ih =>
      obtain ⟨k', xs⟩ := e
      by_cases hk : k = k'
      · subst hk
        by_cases hj : k = j <;> simp [insertGroup, lookupGroup, hj]
      · by_cases hj : k' = j
        · subst hj
          have hkj : ¬ k = k' := hk
          simp [insertGroup, hk, lookupGroup, hkj]
        · simp [insertGroup, hk, lookupGroup, hj, ih]

/-- Folding insertions over `l` starting from `m`: each bucket collects, in
order, the values of `l` carrying its key. -/
theorem lookupGroup_foldInsertAux {κ α : Type} [DecidableEq κ]
    (l : List (κ × α)) (m : List (κ × List α)) (k : κ) :
    lookupGroup (l.foldl (fun m kv => insertGroup m kv.1 kv.2) m) k =
      lookupGroup m k ++ (l.filter (fun kv => decide (kv.1 = k))).map (fun kv => kv.2) := by
  induction l generalizing m with
  | nil => simp
  | cons kv rest ih =>
      simp only [List.foldl_cons]
      rw [ih, lookupGroup_insertGroup]
      by_cases h : kv.1 = k
      · simp [List.filter_cons, h]
      · simp [List.filter_cons, h]

/-- The bucket of key `k` in a dict built by insertions is exactly the list
of values inserted with key `k`, in insertion order. -/
theorem lookupGroup_foldInsert {κ α : Type} [DecidableEq κ] (l : List (κ × α)) (k : κ) :
    lookupGroup (foldInsert l) k =
      (l.filter (fun kv => decide (kv.1 = k))).map (fun kv => kv.2) := by
  simpa [foldInsert, lookupGroup] using lookupGroup_foldInsertAux l [] k

/-- Membership in the bucket of key `k` is membership of the pair `(k, x)`
among the inserted pairs. -/
theorem mem_lookupGroup_foldInsert {κ α : Type} [DecidableEq κ]
    (l : List (κ × α)) (k : κ) (x : α) :
    x ∈ lookupGroup (foldInsert l) k ↔ (k, x) ∈ l := by
  rw [lookupGroup_foldInsert]
  simp only [List.mem_map, List.mem_filter, decide_eq_true_eq]
  constructor
  · rintro ⟨⟨a, b⟩, ⟨hmem, rfl⟩, rfl⟩
    exact hmem
  · intro h
    exact ⟨(k, x), ⟨h, rfl⟩, rfl⟩

/-- A non-empty bucket is one of the dict's values. -/
theorem lookupGroup_mem_values {κ α : Type} [DecidableEq κ]
    (m : List (κ × List α)) (k : κ) (h : lookupGroup m k ≠ []) :
    lookupGroup m k ∈ m.map (fun e => e.2) := by
  induction m with
  | nil => simp [lookupGroup] at h
  | cons e rest ih =>
      by_cases he : e.1 = k
      · simp [lookupGroup, he]
      · simp only [lookupGroup, if_neg he] at h ⊢
        simp only [List.map_cons, List.mem_cons]
        exact Or.inr (ih h)

/-- A list holding two distinct elements has at least two elements. -/
theorem one_lt_length_of_two_mem {α : Type} {g : List α} {x y : α}
    (hx : x ∈ g) (hy : y ∈ g) (hxy : x ≠ y) : 1 < g.length := by
  cases g with
  | nil => simp at hx
  | cons a t =>
    cases t with
    | nil =>
        simp only [List.mem_singleton] at hx hy
        exact absurd (hx.trans hy.symm) hxy
    | cons b t2 =>
        simp [List.length_cons]

/-- Two distinct values inserted under the same key end up together in one
of the cardinality-two-or-more buckets. -/
theorem pair_mem_bigBuckets {κ α : Type} [DecidableEq κ]
    (l : List (κ × α)) (k : κ) (x y : α)
    (hx : (k, x) ∈ l) (hy : (k, y) ∈ l) (hxy : x ≠ y) :
    ∃ g ∈ bigBuckets (foldInsert l), x ∈ g ∧ y ∈ g := by
  have hxg : x ∈ lookupGroup (foldInsert l) k := (mem_lookupGroup_foldInsert l k x).2 hx
  have hyg : y ∈ lookupGroup (foldInsert l) k := (mem_lookupGroup_foldInsert l k y).2 hy
  have hlen : 1 < (lookupGroup (foldInsert l) k).length := one_lt_length_of_two_mem hxg hyg hxy
  refine ⟨lookupGroup (foldInsert l) k, ?_, hxg, hyg⟩
  have hne : lookupGroup (foldInsert l) k ≠ [] := by
    intro h
    rw [h] at hlen
    simp at hlen
  exact List.mem_filter.2 ⟨lookupGroup_mem_values _ _ hne, by simpa using hlen⟩

/-- Keys of the dict after one insertion. -/
theorem keys_insertGroup {κ α : Type} [DecidableEq κ] (m : List (κ × List α)) (k : κ) (x : α) :
    (insertGroup m k x).map (fun e => e.1) =
      if k ∈ m.map (fun e => e.1) then m.map (fun e => e.1)
      else m.map (fun e => e.1) ++ [k] := by
  induction m with
  | nil => simp [insertGroup]
  | cons e rest ih =>
      obtain ⟨k', xs⟩ := e
      by_cases hk : k = k'
      · subst hk
        simp [insertGroup]
      · by_cases hmem : k ∈ rest.map (fun e => e.1)
        · simp [insertGroup, hk, ih, hmem]
        · simp [insertGroup, hk, ih, hmem]

/-- Insertion preserves distinctness of the dict's keys. -/
theorem keysNodup_insertGroup {κ α : Type} [DecidableEq κ] {m : List (κ × List α)}
    (h : (m.map (fun e => e.1)).Nodup) (k : κ) (x : α) :
    ((insertGroup m k x).map (fun e => e.1)).Nodup := by
  rw [keys_insertGroup]
  by_cases hmem : k ∈ m.map (fun e => e.1)
  · simpa [hmem] using h
  · simp [hmem, List.nodup_append, h]

/-- A dict built from `[]` by insertions has distinct keys. -/
theorem keysNodup_foldInsert {κ α : Type} [DecidableEq κ] (l : List (κ × α)) :
    ((foldInsert l).map (fun e => e.1)).Nodup := by
  suffices h : ∀ m : List (κ × List α), (m.map (fun e => e.1)).Nodup →
      ((l.foldl (fun m kv => insertGroup m kv.1 kv.2) m).map (fun e => e.1)).Nodup by
    exact h [] (by simp)
  induction l with
  | nil =>
      intro m hm
      simpa using hm
  | cons kv rest ih =>
      intro m hm
      exact ih _ (keysNodup_insertGroup hm kv.1 kv.2)

/-- With distinct keys, an entry of the dict is recovered by lookup. -/
theorem eq_lookupGroup_of_mem {κ α : Type} [DecidableEq κ]
    {m : List (κ × List α)} (hnd : (m.map (fun e => e.1)).Nodup)
    {k : κ} {g : List α} (hmem : (k, g) ∈ m) :
    lookupGroup m k = g := by
  induction m with
  | nil => simp at hmem
  | cons e rest ih =>
      simp only [List.map_cons, List.nodup_cons] at hnd
      rcases List.mem_cons.1 hmem with h | h
      · rw [← h]
        simp [lookupGroup]
      · have hk : k ∈ rest.map (fun e => e.1) := List.mem_map.2 ⟨(k, g), h, rfl⟩
        have hne : ¬ e.1 = k := fun he => hnd.1 (he ▸ hk)
        simp [lookupGroup, hne, ih hnd.2 h]

/-- Every cardinality-two-or-more bucket of a dict built by insertions is
the insertion-ordered list of the values sharing some key. -/
theorem mem_bigBuckets_foldInsert {κ α : Type} [DecidableEq κ]
    {l : List (κ × α)} {g : List α} (hg : g ∈ bigBuckets (foldInsert l)) :
    ∃ k, g = (l.filter (fun kv => decide (kv.1 = k))).map (fun kv => kv.2)
      ∧ 1 < g.length := by
  obtain ⟨hmem, hlen⟩ := List.mem_filter.1 hg
  obtain ⟨e, he, hev⟩ := List.mem_map.1 hmem
  refine ⟨e.1, ?_, by simpa using hlen⟩
  have hl : lookupGroup (foldInsert l) e.1 = e.2 :=
    eq_lookupGroup_of_mem (keysNodup_foldInsert l) (by cases e; exact he)
  rw [← hev, ← hl, lookupGroup_foldInsert]

/-! ## Lemmas about the filesystem model -/

/-- Removing the entries of another path does not change a lookup. -/
theorem lookupFile_filterOut_ne (l : List (String × List Nat)) (r p : String) (h : p ≠ r) :
    lookupFile (l.filter (fun e => !decide (e.1 = r))) p = lookupFile l p := by
  induction l with
  | nil => rfl
  | cons e rest ih =>
      rw [List.filter_cons]
      by_cases he : e.1 = r
      · have hep : ¬ e.1 = p := fun hh => h (hh ▸ he)
        rw [if_neg (by simp [he]), ih, lookupFile, if_neg hep]
      · by_cases hp : e.1 = p
        · rw [if_pos (by simp [he]), lookupFile, if_pos hp, lookupFile, if_pos hp]
        · rw [if_pos (by simp [he]), lookupFile, if_neg hp, ih, lookupFile, if_neg hp]

/-- After removing a path, looking it up yields nothing. -/
theorem lookupFile_filterOut_self (l : List (String × List Nat)) (r : String) :
    lookupFile (l.filter (fun e => !decide (e.1 = r))) r = none := by
  induction l with
  | nil => rfl
  | cons e rest ih =>
      rw [List.filter_cons]
      by_cases he : e.1 = r
      · rw [if_neg (by simp [he]), ih]
      · rw [if_pos (by simp [he]), lookupFile, if_neg he, ih]

/-- Lookup in a concatenation tries the left part first. -/
theorem lookupFile_append (a b : List (String × List Nat)) (p : String) :
    lookupFile (a ++ b) p =
      match lookupFile a p with
      | some c => some c
      | none => lookupFile b p := by
  induction a with
  | nil => rfl
  | cons e rest ih =>
      by_cases he : e.1 = p <;> simp [lookupFile, he, ih]

/-- Writing at `p` makes `p` hold the written content. -/
theorem fsLookup_fsSet_self (fs : FS) (p : String) (c : List Nat) :
    fsLookup (fsSet fs p c) p = some c := by
  simp [fsLookup, fsSet, lookupFile_append, lookupFile_filterOut_self, lookupFile]

/-- Writing at `p` does not change other paths. -/
theorem fsLookup_fsSet_ne (fs : FS) (p q : String) (c : List Nat) (h : q ≠ p) :
    fsLookup (fsSet fs p c) q = fsLookup fs q := by
  simp only [fsLookup, fsSet, lookupFile_append, lookupFile_filterOut_ne _ _ _ h]
  cases hl : lookupFile fs.files q with
  | some c' => rfl
  | none => simp [lookupFile, Ne.symm h]

/-- Unlinking `p` removes it. -/
theorem fsLookup_fsRemove_self (fs : FS) (p : String) :
    fsLookup (fsRemove fs p) p = none :=
  lookupFile_filterOut_self _ _

/-- Unlinking `p` does not change other paths. -/
theorem fsLookup_fsRemove_ne (fs : FS) (p q : String) (h : q ≠ p) :
    fsLookup (fsRemove fs p) q = fsLookup fs q :=
  lookupFile_filterOut_ne _ _ _ h

/-- Creating a directory changes no file. -/
theorem fsLookup_ensure_dir (fs : FS) (d : String) (p : String) :
    fsLookup (ensure_dir fs d) p = fsLookup fs p := rfl

/-- A move changes no path other than its source and destination. -/
theorem fsLookup_fsMove_ne (fs : FS) (src dst p : String) (h1 : p ≠ src) (h2 : p ≠ dst) :
    fsLookup (fsMove fs src dst) p = fsLookup fs p := by
  unfold fsMove
  cases h : fsLookup fs src with
  | none => rfl
  | some c => rw [fsLookup_fsSet_ne _ _ _ _ h2, fsLookup_fsRemove_ne _ _ _ h1]

/-- After a move of an existing source, the destination holds the source's
content — also when the destination already held a file. -/
theorem fsLookup_fsMove_dst (fs : FS) (src dst : String) (c : List Nat)
    (h : fsLookup fs src = some c) :
    fsLookup (fsMove fs src dst) dst = some c := by
  unfold fsMove
  rw [h]
  exact fsLookup_fsSet_self _ _ _

/-- After a move of an existing source (to a different path), the source is
gone. -/
theorem fsLookup_fsMove_src (fs : FS) (src dst : String) (c : List Nat)
    (h : fsLookup fs src = some c) (hne : src ≠ dst) :
    fsLookup (fsMove fs src dst) src = none := by
  unfold fsMove
  rw [h, fsLookup_fsSet_ne _ _ _ _ hne]
  exact fsLookup_fsRemove_self _ _

/-! ## Lemmas about disposal -/

/-- Disposing of one victim does not change a path that is neither the
victim nor its quarantine destination. -/
theorem fsLookup_disposeStep_ne (apply : Bool) (qd : Option String) (fails : String → Bool)
    (fs : FS) (v : File) (p : String)
    (hsrc : p ≠ v.path)
    (hdst : ∀ q, qd = some q → p ≠ q ++ "/" ++ baseName v.path) :
    fsLookup (disposeStep apply qd fails fs v) p = fsLookup fs p := by
  unfold disposeStep
  by_cases hf : fails v.path = true
  · simp [hf]
  · cases apply with
    | false => simp [hf]
    | true =>
        cases qd with
        | none => simp [hf, fsLookup_fsRemove_ne _ _ _ hsrc]
        | some q =>
            simp only [hf, Bool.false_eq_true, if_false, if_true]
            rw [fsLookup_fsMove_ne _ _ _ _ hsrc (hdst q rfl), fsLookup_ensure_dir]

/-- The whole victim loop does not change a path that is no victim and no
quarantine destination of a victim. -/
theorem fsLookup_foldl_disposeStep (l : List File) (apply : Bool) (qd : Option String)
    (fails : String → Bool) (fs : FS) (p : String)
    (h : ∀ v ∈ l, p ≠ v.path ∧ ∀ q, qd = some q → p ≠ q ++ "/" ++ baseName v.path) :
    fsLookup (l.foldl (disposeStep apply qd fails) fs) p = fsLookup fs p := by
  induction l generalizing fs with
  | nil => rfl
  | cons v rest ih =>
      rw [List.foldl_cons, ih _ (fun w hw => h w (List.mem_cons_of_mem _ hw))]
      exact fsLookup_disposeStep_ne _ _ _ _ _ _ (h v (List.mem_cons_self _ _)).1
        (h v (List.mem_cons_self _ _)).2

/-- Without `--apply` the victim loop body only logs. -/
theorem disposeStep_dryrun (qd : Option String) (fails : String → Bool) (fs : FS) (v : File) :
    disposeStep false qd fails fs v = fs := by
  unfold disposeStep
  by_cases hf : fails v.path = true <;> simp [hf]

/-- Without `--apply`, `delete_or_quarantine` leaves the filesystem alone. -/
theorem delete_or_quarantine_dryrun (g : List File) (qd : Option String)
    (fails : String → Bool) (fs : FS) :
    delete_or_quarantine g false qd fails fs = fs := by
  unfold delete_or_quarantine
  induction victims g generalizing fs with
  | nil => rfl
  | cons v rest ih => rw [List.foldl_cons, disposeStep_dryrun, ih]

/-- Without `--apply`, the disposal loop of `main` leaves the filesystem
alone. -/
theorem runDisposal_dryrun (dups : List (List File)) (qd : Option String)
    (fails : String → Bool) (fs : FS) :
    runDisposal dups false qd fails fs = fs := by
  unfold runDisposal
  induction dups generalizing fs with
  | nil => rfl
  | cons g rest ih => rw [List.foldl_cons, delete_or_quarantine_dryrun, ih]

/-- A failing victim is skipped and the loop carries on: the victim loop
computes the same state as the loop over the non-failing victims only. -/
theorem foldl_disposeStep_filter (l : List File) (apply : Bool) (qd : Option String)
    (fails : String → Bool) (fs : FS) :
    l.foldl (disposeStep apply qd fails) fs =
      (l.filter (fun w => !(fails w.path))).foldl (disposeStep apply qd fails) fs := by
  induction l generalizing fs with
  | nil => rfl
  | cons v rest ih =>
      by_cases hf : fails v.path = true
      · have hstep : disposeStep apply qd fails fs v = fs := by
          unfold disposeStep
          simp [hf]
        simp [List.filter_cons, hf, hstep, ih]
      · simp [List.filter_cons, hf, ih]

/-! ## Lemmas about the report -/

/-- Every report row's action is `deleted` under `--apply` and
`will‑delete` otherwise. -/
theorem reportRows_action (dups : List (List File)) (apply : Bool) (row : Row)
    (hrow : row ∈ reportRows dups apply) :
    row.1 = if apply then "deleted" else "will‑delete" := by
  unfold reportRows at hrow
  rw [List.mem_flatten] at hrow
  obtain ⟨rows, hrows, hr⟩ := hrow
  obtain ⟨g, hg, rfl⟩ := List.mem_map.1 hrows
  obtain ⟨dup, hdup, rfl⟩ := List.mem_map.1 hr
  rfl

/-- The report has exactly one row per victim. -/
theorem reportRows_length (dups : List (List File)) (apply : Bool) :
    (reportRows dups apply).length = (dups.map (fun g => g.length - 1)).sum := by
  simp [reportRows, List.length_flatten, List.map_map, Function.comp_def, victims]

/-- Every victim of every group has its row in the report. -/
theorem reportRows_mem (dups : List (List File)) (apply : Bool) (g : List File) (v : File)
    (hg : g ∈ dups) (hv : v ∈ victims g) :
    ((if apply then "deleted" else "will‑delete"), (keeperOf g).path, v.path)
      ∈ reportRows dups apply := by
  unfold reportRows
  rw [List.mem_flatten]
  exact ⟨_, List.mem_map_of_mem _ hg, List.mem_map_of_mem _ hv⟩

/-- A member of the bucket of key `k` was inserted with key `k`. -/
theorem key_of_mem_bucket {κ α : Type} [DecidableEq κ] {l : List (κ × α)} {k : κ} {x : α}
    (hx : x ∈ (l.filter (fun kv => decide (kv.1 = k))).map (fun kv => kv.2)) :
    (k, x) ∈ l := by
  obtain ⟨⟨a, b⟩, hab, rfl⟩ := List.mem_map.1 hx
  obtain ⟨hmem, hkey⟩ := List.mem_filter.1 hab
  simp only [decide_eq_true_eq] at hkey
  subst hkey
  exact hmem

/-- When every full-hash result comes from `full_hash`, the key a file is
inserted under in `fmap` is the digest of its content. -/
theorem fKVs_sound {β : Type} (hf : List Nat → β) (ioErr : String → Bool)
    (fres : List (File × Option β)) (hsrc : ∀ r ∈ fres, ∃ f, r = full_hash hf ioErr f)
    {k : β} {u : File} (hmem : (k, u) ∈ fKVs fres) : k = hf u.content := by
  unfold fKVs at hmem
  obtain ⟨r, hr, hmap⟩ := List.mem_filterMap.1 hmem
  obtain ⟨f, rfl⟩ := hsrc r hr
  unfold full_hash at hmap
  by_cases he : ioErr f.path = true
  · rw [if_pos he] at hmap
    simp at hmap
  · rw [if_neg he] at hmap
    simp only [Option.map_some', Option.some.injEq, Prod.mk.injEq] at hmap
    obtain ⟨h1, h2⟩ := hmap
    subst h2
    exact h1.symm

/-! ## Claims -/

/-- C3: with `apply = false` (the default dry run), disposal and directory
reclamation mutate nothing — no file is deleted or moved, no directory is
created or removed (the quarantine directory included), the directory tree
is untouched — while the report is still fully populated: one row per
victim, and every victim's row is present. -/
theorem dry_run_frame (dups : List (List File)) (qd : Option String)
    (fails : String → Bool) (fs : FS) (tree : FSTree) :
    mainRun dups false qd fails fs tree = (fs, some tree, reportRows dups false)
  ∧ (reportRows dups false).length = (dups.map (fun g => g.length - 1)).sum
  ∧ ∀ g ∈ dups, ∀ v ∈ victims g,
      ("will‑delete", (keeperOf g).path, v.path) ∈ reportRows dups false := by
  refine ⟨?_, reportRows_length dups false, ?_⟩
  · simp [mainRun, runDisposal_dryrun]
  · intro g hg v hv
    simpa using reportRows_mem dups false g v hg hv

/-- Witness for `dry_run_frame`: a concrete dry run on one two-member
group leaves the filesystem and tree untouched and reports the victim. -/
theorem dry_run_frame_witness :
    mainRun [[⟨"k/0.bin", [7]⟩, ⟨"a/1.bin", [7]⟩]] false (some "quar") (fun _ => false)
        ⟨[("a/1.bin", [7])], []⟩ (FSTree.dir "r" [])
      = (⟨[("a/1.bin", [7])], []⟩, some (FSTree.dir "r" []),
         reportRows [[⟨"k/0.bin", [7]⟩, ⟨"a/1.bin", [7]⟩]] false)
  ∧ ("will‑delete", "k/0.bin", "a/1.bin")
      ∈ reportRows [[⟨"k/0.bin", [7]⟩, ⟨"a/1.bin", [7]⟩]] false := by
  have h := dry_run_frame [[⟨"k/0.bin", [7]⟩, ⟨"a/1.bin", [7]⟩]] (some "quar")
    (fun _ => false) ⟨[("a/1.bin", [7])], []⟩ (FSTree.dir "r" [])
  refine ⟨h.1, ?_⟩
  have h3 := h.2.2 [⟨"k/0.bin", [7]⟩, ⟨"a/1.bin", [7]⟩] (by simp)
    ⟨"a/1.bin", [7]⟩ (by simp [victims])
  simpa [keeperOf] using h3

/-- C5 fails on the code: the script's only action strings are `deleted`
and `will‑delete` (`duplicated.py:190`).  A dry run records `will‑delete`,
which is not in the claimed vocabulary, and under `--apply` with a
quarantine directory a victim that is demonstrably moved into quarantine is
still recorded as `deleted`, not `quarantined`. -/
theorem report_action_vocabulary_cx :
    (mainRun [[⟨"k/0.bin", [7]⟩, ⟨"a/1.bin", [7]⟩]] true (some "quar") (fun _ => false)
        ⟨[("a/1.bin", [7])], []⟩ (FSTree.dir "r" [])).2.2
      = [("deleted", "k/0.bin", "a/1.bin")]
  ∧ fsLookup (mainRun [[⟨"k/0.bin", [7]⟩, ⟨"a/1.bin", [7]⟩]] true (some "quar")
        (fun _ => false) ⟨[("a/1.bin", [7])], []⟩ (FSTree.dir "r" [])).1 "quar/1.bin"
      = some [7]
  ∧ fsLookup (mainRun [[⟨"k/0.bin", [7]⟩, ⟨"a/1.bin", [7]⟩]] true (some "quar")
        (fun _ => false) ⟨[("a/1.bin", [7])], []⟩ (FSTree.dir "r" [])).1 "a/1.bin"
      = none
  ∧ ("deleted" : String) ≠ "quarantined"
  ∧ (reportRows [[⟨"k/0.bin", [7]⟩, ⟨"a/1.bin", [7]⟩]] false).map (fun r => r.1)
      = ["will‑delete"]
  ∧ ("will‑delete" : String)
      ∉ (["would-delete", "deleted", "would-quarantine", "quarantined", "error"] :
          List String) := by
  refine ⟨?_, ?_, ?_, ?_, ?_, ?_⟩ <;> decide

/-- C5 amended: every report row's action is exactly `deleted` when
`apply` is true and `will‑delete` otherwise — whatever the quarantine
setting and whatever disposal errors occur; the actions `would-delete`,
`would-quarantine`, `quarantined` and `error` never appear. -/
theorem report_action_determined_by_apply (dups : List (List File)) (apply : Bool)
    (qd : Option String) (fails : String → Bool) (fs : FS) (tree : FSTree) (row : Row)
    (hrow : row ∈ (mainRun dups apply qd fails fs tree).2.2) :
    row.1 = (if apply then "deleted" else "will‑delete")
  ∧ row.1 ≠ "would-delete" ∧ row.1 ≠ "would-quarantine"
  ∧ row.1 ≠ "quarantined" ∧ row.1 ≠ "error" := by
  have h : row.1 = if apply then "deleted" else "will‑delete" :=
    reportRows_action dups apply row hrow
  refine ⟨h, ?_, ?_, ?_, ?_⟩ <;> (rw [h]; cases apply <;> decide)

/-- Witness for `report_action_determined_by_apply` at a concrete dry
run. -/
theorem report_action_determined_by_apply_witness :
    (("will‑delete", "k/0.bin", "a/1.bin") : Row)
      ∈ (mainRun [[⟨"k/0.bin", [7]⟩, ⟨"a/1.bin", [7]⟩]] false none (fun _ => false)
          ⟨[], []⟩ (FSTree.dir "r" [])).2.2
  ∧ ((("will‑delete", "k/0.bin", "a/1.bin") : Row).1
        = (if false then "deleted" else "will‑delete")
      ∧ (("will‑delete", "k/0.bin", "a/1.bin") : Row).1 ≠ "would-delete"
      ∧ (("will‑delete", "k/0.bin", "a/1.bin") : Row).1 ≠ "would-quarantine"
      ∧ (("will‑delete", "k/0.bin", "a/1.bin") : Row).1 ≠ "quarantined"
      ∧ (("will‑delete", "k/0.bin", "a/1.bin") : Row).1 ≠ "error") := by
  have hmem : (("will‑delete", "k/0.bin", "a/1.bin") : Row)
      ∈ (mainRun [[⟨"k/0.bin", [7]⟩, ⟨"a/1.bin", [7]⟩]] false none (fun _ => false)
          ⟨[], []⟩ (FSTree.dir "r" [])).2.2 := by decide
  exact ⟨hmem, report_action_determined_by_apply _ _ _ _ _ _ _ hmem⟩

/-- C6 fails on the code: when deletion of a victim raises under
`--apply`, its report row still says `deleted` — rows are appended before
disposal (`duplicated.py:191`) and never updated — and no `error` action
exists anywhere in the script.  Here the delete of `a/1.bin` fails, the
file provably remains, yet the report reads `deleted`. -/
theorem disposal_error_not_recorded :
    (mainRun [[⟨"k/0.bin", [7]⟩, ⟨"a/1.bin", [7]⟩]] true none
        (fun p => decide (p = "a/1.bin"))
        ⟨[("a/1.bin", [7]), ("k/0.bin", [7])], []⟩ (FSTree.dir "r" [FSTree.file "x"])).1
      = ⟨[("a/1.bin", [7]), ("k/0.bin", [7])], []⟩
  ∧ (mainRun [[⟨"k/0.bin", [7]⟩, ⟨"a/1.bin", [7]⟩]] true none
        (fun p => decide (p = "a/1.bin"))
        ⟨[("a/1.bin", [7]), ("k/0.bin", [7])], []⟩ (FSTree.dir "r" [FSTree.file "x"])).2.2
      = [("deleted", "k/0.bin", "a/1.bin")]
  ∧ ("deleted" : String) ≠ "error" := by
  refine ⟨?_, ?_, ?_⟩ <;> decide

/-- C6 amended: a failing delete/move is caught and the run carries on —
the victim loop computes the same state as a loop over the non-failing
victims only, so the remaining victims and groups are processed — but the
failed victim's report row records `deleted` (dry run: `will‑delete`),
never `error`. -/
theorem disposal_error_caught_continues (dups : List (List File)) (apply : Bool)
    (qd : Option String) (fails : String → Bool) (fs : FS) (g : List File) (v : File)
    (hg : g ∈ dups) (hv : v ∈ victims g) (_hfail : fails v.path = true) :
    delete_or_quarantine g apply qd fails fs
      = ((victims g).filter (fun w => !(fails w.path))).foldl (disposeStep apply qd fails) fs
  ∧ ((if apply then "deleted" else "will‑delete"), (keeperOf g).path, v.path)
      ∈ reportRows dups apply
  ∧ ∀ row ∈ reportRows dups apply, row.1 ≠ "error" := by
  refine ⟨foldl_disposeStep_filter _ _ _ _ _, reportRows_mem dups apply g v hg hv, ?_⟩
  intro row hrow
  rw [reportRows_action dups apply row hrow]
  cases apply <;> decide

/-- Witness for `disposal_error_caught_continues`: one group whose only
victim fails to delete. -/
theorem disposal_error_caught_continues_witness :
    [(⟨"k/0.bin", [7]⟩ : File), ⟨"a/1.bin", [7]⟩] ∈ [[(⟨"k/0.bin", [7]⟩ : File), ⟨"a/1.bin", [7]⟩]]
  ∧ (⟨"a/1.bin", [7]⟩ : File) ∈ victims [(⟨"k/0.bin", [7]⟩ : File), ⟨"a/1.bin", [7]⟩]
  ∧ (fun p => decide (p = "a/1.bin")) "a/1.bin" = true
  ∧ (delete_or_quarantine [(⟨"k/0.bin", [7]⟩ : File), ⟨"a/1.bin", [7]⟩] true none
        (fun p => decide (p = "a/1.bin")) ⟨[("a/1.bin", [7])], []⟩
      = ((victims [(⟨"k/0.bin", [7]⟩ : File), ⟨"a/1.bin", [7]⟩]).filter
          (fun w => !((fun p => decide (p = "a/1.bin")) w.path))).foldl
          (disposeStep true none (fun p => decide (p = "a/1.bin")))
          ⟨[("a/1.bin", [7])], []⟩
    ∧ ((if true then "deleted" else "will‑delete"),
        (keeperOf [(⟨"k/0.bin", [7]⟩ : File), ⟨"a/1.bin", [7]⟩]).path, "a/1.bin")
        ∈ reportRows [[(⟨"k/0.bin", [7]⟩ : File), ⟨"a/1.bin", [7]⟩]] true
    ∧ ∀ row ∈ reportRows [[(⟨"k/0.bin", [7]⟩ : File), ⟨"a/1.bin", [7]⟩]] true,
        row.1 ≠ "error") := by
  refine ⟨by decide, by decide, by decide, ?_⟩
  exact disposal_error_caught_continues _ true none _ _ _ ⟨"a/1.bin", [7]⟩
    (by decide) (by decide) (by decide)

/-- C7: a confirmed group decomposes as its keeper (`group[0]`) followed by
its victims (`group[1:]`); only the victims enter the disposal loop, the
keeper is not among them, and the keeper's file is untouched by disposal
(given the group's paths are distinct and no victim's quarantine
destination collides with the keeper's path). -/
theorem keeper_never_disposed (group : List File) (apply : Bool) (qd : Option String)
    (fails : String → Bool) (fs : FS)
    (hne : group ≠ [])
    (hnd : (group.map (fun f => f.path)).Nodup)
    (hq : ∀ q, qd = some q → ∀ v ∈ victims group,
      (keeperOf group).path ≠ q ++ "/" ++ baseName v.path) :
    group = keeperOf group :: victims group
  ∧ (keeperOf group).path ∉ (victims group).map (fun f => f.path)
  ∧ delete_or_quarantine group apply qd fails fs
      = (victims group).foldl (disposeStep apply qd fails) fs
  ∧ fsLookup (delete_or_quarantine group apply qd fails fs) (keeperOf group).path
      = fsLookup fs (keeperOf group).path := by
  obtain ⟨a, t, rfl⟩ : ∃ a t, group = a :: t := by
    cases group with
    | nil => exact absurd rfl hne
    | cons a t => exact ⟨a, t, rfl⟩
  have hnotin : a.path ∉ t.map (fun f => f.path) := by
    simp only [List.map_cons, List.nodup_cons] at hnd
    exact hnd.1
  refine ⟨rfl, hnotin, rfl, ?_⟩
  apply fsLookup_foldl_disposeStep
  intro v hv
  refine ⟨?_, fun q hq' => hq q hq' v hv⟩
  intro hpath
  exact hnotin (hpath ▸ List.mem_map_of_mem _ hv)

/-- Witness for `keeper_never_disposed` on a concrete quarantine run: the
keeper's file is untouched while the victim is moved. -/
theorem keeper_never_disposed_witness :
    ([(⟨"k/0.bin", [7]⟩ : File), ⟨"a/1.bin", [7]⟩] : List File) ≠ []
  ∧ (([(⟨"k/0.bin", [7]⟩ : File), ⟨"a/1.bin", [7]⟩]).map (fun f => f.path)).Nodup
  ∧ ([(⟨"k/0.bin", [7]⟩ : File), ⟨"a/1.bin", [7]⟩] : List File)
      = keeperOf [(⟨"k/0.bin", [7]⟩ : File), ⟨"a/1.bin", [7]⟩]
        :: victims [(⟨"k/0.bin", [7]⟩ : File), ⟨"a/1.bin", [7]⟩]
  ∧ fsLookup (delete_or_quarantine [(⟨"k/0.bin", [7]⟩ : File), ⟨"a/1.bin", [7]⟩] true
        (some "quar") (fun _ => false) ⟨[("k/0.bin", [7]), ("a/1.bin", [7])], []⟩)
        (keeperOf [(⟨"k/0.bin", [7]⟩ : File), ⟨"a/1.bin", [7]⟩]).path
      = fsLookup ⟨[("k/0.bin", [7]), ("a/1.bin", [7])], []⟩
        (keeperOf [(⟨"k/0.bin", [7]⟩ : File), ⟨"a/1.bin", [7]⟩]).path := by
  have h := keeper_never_disposed [(⟨"k/0.bin", [7]⟩ : File), ⟨"a/1.bin", [7]⟩] true
    (some "quar") (fun _ => false) ⟨[("k/0.bin", [7]), ("a/1.bin", [7])], []⟩
    (by decide) (by decide)
    (by
      intro q hq'
      cases hq'
      decide)
  exact ⟨by decide, by decide, h.1, h.2.2.2⟩

/-- C9: the quick fingerprint digests the first 4096 bytes and, exactly
when the file is larger than 8192 bytes, additionally the last 4096 bytes
reached by seeking back from the end, combined into a single digest; a
file of at most 8192 bytes is fingerprinted from the head read alone. -/
theorem quick_hash_structure {α : Type} (hq : List Nat → α) (ioErr : String → Bool)
    (f : File) (herr : ioErr f.path = false) :
    (8192 < f.content.length →
        quick_hash hq ioErr f
          = (f, some (f.content.length,
              hq (f.content.take 4096 ++ f.content.drop (f.content.length - 4096))))
        ∧ (f.content.drop (f.content.length - 4096)).length = 4096)
  ∧ (f.content.length ≤ 8192 →
      quick_hash hq ioErr f = (f, some (f.content.length, hq (f.content.take 4096)))) := by
  constructor
  · intro hlen
    constructor
    · unfold quick_hash qhInput partBytes
      rw [if_neg (by simp [herr]), if_pos (by omega)]
    · rw [List.length_drop]
      omega
  · intro hlen
    unfold quick_hash qhInput partBytes
    rw [if_neg (by simp [herr]), if_neg (by omega)]
    simp

/-- Witness for `quick_hash_structure` on an 8193-byte file: both reads
contribute, and the tail read is exactly the last 4096 bytes. -/
theorem quick_hash_structure_witness :
    ((fun _ => false) : String → Bool) "p.bin" = false
  ∧ 8192 < (⟨"p.bin", List.replicate 8193 (0 : Nat)⟩ : File).content.length
  ∧ quick_hash (fun c => c) (fun _ => false) ⟨"p.bin", List.replicate 8193 (0 : Nat)⟩
      = (⟨"p.bin", List.replicate 8193 (0 : Nat)⟩,
         some ((⟨"p.bin", List.replicate 8193 (0 : Nat)⟩ : File).content.length,
           ((⟨"p.bin", List.replicate 8193 (0 : Nat)⟩ : File).content.take 4096
            ++ (⟨"p.bin", List.replicate 8193 (0 : Nat)⟩ : File).content.drop
                ((⟨"p.bin", List.replicate 8193 (0 : Nat)⟩ : File).content.length - 4096))))
  ∧ ((⟨"p.bin", List.replicate 8193 (0 : Nat)⟩ : File).content.drop
        ((⟨"p.bin", List.replicate 8193 (0 : Nat)⟩ : File).content.length - 4096)).length
      = 4096 := by
  have hlen : 8192 < (⟨"p.bin", List.replicate 8193 (0 : Nat)⟩ : File).content.length := by
    show 8192 < (List.replicate 8193 (0 : Nat)).length
    rw [List.length_replicate]
    omega
  have h := (quick_hash_structure (fun c => c) (fun _ => false)
    ⟨"p.bin", List.replicate 8193 (0 : Nat)⟩ rfl).1 hlen
  refine ⟨rfl, hlen, ?_, ?_⟩
  · exact h.1
  · exact h.2

/-- C10: `os.walk(root, topdown=False)` yields the root itself last, so a
root directory containing no files and no subdirectories when reclamation
starts is itself removed — not only directories strictly below it. -/
theorem reclaimer_removes_empty_root (n : String) :
    remove_empty_dirs (FSTree.dir n []) = none := by
  simp [remove_empty_dirs]

/-- C2 fails on the code: the quarantine destination is always
`quarantine_dir / v.name` with no disambiguation, and `shutil.move` onto an
existing file is a silent `os.rename` replacement.  Disposing of
`a/1.bin` and then `b/1.bin` (equal base names, different directories, two
groups) into quarantine `quar` leaves a single file `quar/1.bin` holding
the second victim's bytes `[2]`; the first victim's bytes `[1]` were at
`quar/1.bin` after the first move and are gone afterwards. -/
theorem quarantine_silent_overwrite :
    runDisposal
        [[⟨"ka/0.bin", [1]⟩, ⟨"a/1.bin", [1]⟩], [⟨"kb/0.bin", [2]⟩, ⟨"b/1.bin", [2]⟩]]
        true (some "quar") (fun _ => false)
        ⟨[("a/1.bin", [1]), ("b/1.bin", [2])], []⟩
      = ⟨[("quar/1.bin", [2])], ["quar"]⟩
  ∧ fsLookup (delete_or_quarantine [⟨"ka/0.bin", [1]⟩, ⟨"a/1.bin", [1]⟩] true (some "quar")
        (fun _ => false) ⟨[("a/1.bin", [1]), ("b/1.bin", [2])], []⟩) "quar/1.bin"
      = some [1] := by
  constructor <;> decide

/-- C2 amended: the move of a victim into quarantine targets exactly
`quarantine_dir / baseName victim`; when two victims share a base name, the
later move silently replaces the earlier victim's copy in quarantine (the
earlier copy's source path is already gone), so one victim's content is
lost. -/
theorem quarantine_same_name_clobbers (fs : FS) (q : String) (k1 v1 k2 v2 : File)
    (c1 c2 : List Nat) (fails : String → Bool)
    (hf1 : fails v1.path = false) (hf2 : fails v2.path = false)
    (hname : baseName v1.path = baseName v2.path)
    (hc1 : fsLookup fs v1.path = some c1) (hc2 : fsLookup fs v2.path = some c2)
    (hd1 : v1.path ≠ q ++ "/" ++ baseName v1.path)
    (hd2 : v2.path ≠ q ++ "/" ++ baseName v1.path)
    (hv12 : v2.path ≠ v1.path) :
    fsLookup (delete_or_quarantine [k1, v1] true (some q) fails fs)
        (q ++ "/" ++ baseName v1.path) = some c1
  ∧ fsLookup (delete_or_quarantine [k2, v2] true (some q) fails
        (delete_or_quarantine [k1, v1] true (some q) fails fs))
        (q ++ "/" ++ baseName v1.path) = some c2
  ∧ fsLookup (delete_or_quarantine [k2, v2] true (some q) fails
        (delete_or_quarantine [k1, v1] true (some q) fails fs)) v1.path = none := by
  have e1 : delete_or_quarantine [k1, v1] true (some q) fails fs
      = fsMove (ensure_dir fs q) v1.path (q ++ "/" ++ baseName v1.path) := by
    show disposeStep true (some q) fails fs v1 = _
    unfold disposeStep
    simp [hf1]
  have e2 : delete_or_quarantine [k2, v2] true (some q) fails
        (delete_or_quarantine [k1, v1] true (some q) fails fs)
      = fsMove (ensure_dir (delete_or_quarantine [k1, v1] true (some q) fails fs) q)
          v2.path (q ++ "/" ++ baseName v2.path) := by
    show disposeStep true (some q) fails _ v2 = _
    unfold disposeStep
    simp [hf2]
  refine ⟨?_, ?_, ?_⟩
  · rw [e1]
    exact fsLookup_fsMove_dst _ _ _ c1 (by rw [fsLookup_ensure_dir]; exact hc1)
  · rw [e2, ← hname]
    refine fsLookup_fsMove_dst _ _ _ c2 ?_
    rw [fsLookup_ensure_dir, e1, fsLookup_fsMove_ne _ _ _ _ hv12 hd2, fsLookup_ensure_dir]
    exact hc2
  · rw [e2, ← hname]
    rw [fsLookup_fsMove_ne _ _ _ _ (Ne.symm hv12) hd1, fsLookup_ensure_dir, e1]
    exact fsLookup_fsMove_src _ _ _ c1 (by rw [fsLookup_ensure_dir]; exact hc1) hd1

/-- Witness for `quarantine_same_name_clobbers` at the concrete overwrite
scenario. -/
theorem quarantine_same_name_clobbers_witness :
    baseName (⟨"a/1.bin", [1]⟩ : File).path = baseName (⟨"b/1.bin", [2]⟩ : File).path
  ∧ fsLookup ⟨[("a/1.bin", [1]), ("b/1.bin", [2])], []⟩ (⟨"a/1.bin", [1]⟩ : File).path
      = some [1]
  ∧ fsLookup (delete_or_quarantine [⟨"ka/0.bin", [1]⟩, ⟨"a/1.bin", [1]⟩] true (some "quar")
        (fun _ => false) ⟨[("a/1.bin", [1]), ("b/1.bin", [2])], []⟩)
        ("quar" ++ "/" ++ baseName (⟨"a/1.bin", [1]⟩ : File).path) = some [1]
  ∧ fsLookup (delete_or_quarantine [⟨"kb/0.bin", [2]⟩, ⟨"b/1.bin", [2]⟩] true (some "quar")
        (fun _ => false)
        (delete_or_quarantine [⟨"ka/0.bin", [1]⟩, ⟨"a/1.bin", [1]⟩] true (some "quar")
          (fun _ => false) ⟨[("a/1.bin", [1]), ("b/1.bin", [2])], []⟩))
        ("quar" ++ "/" ++ baseName (⟨"a/1.bin", [1]⟩ : File).path) = some [2]
  ∧ fsLookup (delete_or_quarantine [⟨"kb/0.bin", [2]⟩, ⟨"b/1.bin", [2]⟩] true (some "quar")
        (fun _ => false)
        (delete_or_quarantine [⟨"ka/0.bin", [1]⟩, ⟨"a/1.bin", [1]⟩] true (some "quar")
          (fun _ => false) ⟨[("a/1.bin", [1]), ("b/1.bin", [2])], []⟩))
        (⟨"a/1.bin", [1]⟩ : File).path = none := by
  have h := quarantine_same_name_clobbers ⟨[("a/1.bin", [1]), ("b/1.bin", [2])], []⟩ "quar"
    ⟨"ka/0.bin", [1]⟩ ⟨"a/1.bin", [1]⟩ ⟨"kb/0.bin", [2]⟩ ⟨"b/1.bin", [2]⟩ [1] [2]
    (fun _ => false) rfl rfl (by decide) (by decide) (by decide) (by decide) (by decide)
    (by decide)
  exact ⟨by decide, by decide, h.1, h.2.1, h.2.2⟩

/-- C8: assuming the full digest is injective (the collision resistance the
spec ascribes to the 256-bit content hash) and that every full-hash result
in the completion list comes from `full_hash`, any two members of one
confirmed DuplicateSet have identical content — hence identical byte size
and identical full content hash. -/
theorem dupset_same_size_and_hash {β : Type} [DecidableEq β]
    (hf : List Nat → β) (hinj : Function.Injective hf) (ioErr : String → Bool)
    (fres : List (File × Option β))
    (hsrc : ∀ r ∈ fres, ∃ f, r = full_hash hf ioErr f)
    (g : List File) (hg : g ∈ duplicatesOf fres) (u v : File)
    (hu : u ∈ g) (hv : v ∈ g) :
    u.content = v.content
  ∧ u.content.length = v.content.length
  ∧ hf u.content = hf v.content := by
  unfold duplicatesOf buildFMap at hg
  obtain ⟨k, hk, _⟩ := mem_bigBuckets_foldInsert hg
  rw [hk] at hu hv
  have hku : (k, u) ∈ fKVs fres := key_of_mem_bucket hu
  have hkv : (k, v) ∈ fKVs fres := key_of_mem_bucket hv
  have h1 : k = hf u.content := fKVs_sound hf ioErr fres hsrc hku
  have h2 : k = hf v.content := fKVs_sound hf ioErr fres hsrc hkv
  have hc : u.content = v.content := hinj (h1 ▸ h2)
  exact ⟨hc, by rw [hc], by rw [hc]⟩

/-- Witness for `dupset_same_size_and_hash` with the identity digest on a
concrete two-member DuplicateSet. -/
theorem dupset_same_size_and_hash_witness :
    (∀ r ∈ [((⟨"a/1.bin", [7]⟩ : File), some [7]), ((⟨"b/1.bin", [7]⟩ : File), some [7])],
      ∃ f, r = full_hash (fun c => c) (fun _ => false) f)
  ∧ [(⟨"a/1.bin", [7]⟩ : File), ⟨"b/1.bin", [7]⟩]
      ∈ duplicatesOf [((⟨"a/1.bin", [7]⟩ : File), some [7]),
          ((⟨"b/1.bin", [7]⟩ : File), some [7])]
  ∧ (⟨"a/1.bin", [7]⟩ : File).content = (⟨"b/1.bin", [7]⟩ : File).content
  ∧ (⟨"a/1.bin", [7]⟩ : File).content.length = (⟨"b/1.bin", [7]⟩ : File).content.length := by
  have hsrc : ∀ r ∈ [((⟨"a/1.bin", [7]⟩ : File), some [7]),
      ((⟨"b/1.bin", [7]⟩ : File), some [7])],
      ∃ f, r = full_hash (fun c => c) (fun _ => false) f := by
    intro r hr
    rcases List.mem_cons.1 hr with h | h
    · exact ⟨⟨"a/1.bin", [7]⟩, by rw [h]; rfl⟩
    · rcases List.mem_cons.1 h with h2 | h2
      · exact ⟨⟨"b/1.bin", [7]⟩, by rw [h2]; rfl⟩
      · simp at h2
  have h := dupset_same_size_and_hash (fun c => c) (fun _ _ hh => hh) (fun _ => false)
    [((⟨"a/1.bin", [7]⟩ : File), some [7]), ((⟨"b/1.bin", [7]⟩ : File), some [7])] hsrc
    [(⟨"a/1.bin", [7]⟩ : File), ⟨"b/1.bin", [7]⟩] (by decide)
    ⟨"a/1.bin", [7]⟩ ⟨"b/1.bin", [7]⟩ (by decide) (by decide)
  exact ⟨hsrc, by decide, h.1, h.2.1⟩

/-- C4: two files with identical byte content anywhere under the root,
neither of which suffers a stat/read/hash error during the run, end up in
the same confirmed DuplicateSet — for every completion order of the
quick-hash and full-hash pools. -/
theorem identical_content_same_dupset {α β : Type} [DecidableEq α] [DecidableEq β]
    (hq : List Nat → α) (hf : List Nat → β) (ioErr : String → Bool)
    (files : List File) (x y : File)
    (hx : x ∈ files) (hy : y ∈ files)
    (hpath : x.path ≠ y.path) (hcontent : x.content = y.content)
    (herrx : ioErr x.path = false) (herry : ioErr y.path = false)
    (qres : List (File × Option (Nat × α)))
    (hqperm : List.Perm qres (quickSubmitted hq ioErr files))
    (fres : List (File × Option β))
    (hfperm : List.Perm fres (fullSubmitted hf ioErr qres)) :
    ∃ g ∈ duplicatesOf fres, x ∈ g ∧ y ∈ g := by
  have hxy : x ≠ y := fun h => hpath (by rw [h])
  have hkx : (x.content.length, x) ∈ files.filterMap (fun p =>
      if ioErr p.path then none else some (p.content.length, p)) :=
    List.mem_filterMap.2 ⟨x, hx, by rw [if_neg (by simp [herrx])]⟩
  have hky : (x.content.length, y) ∈ files.filterMap (fun p =>
      if ioErr p.path then none else some (p.content.length, p)) :=
    List.mem_filterMap.2 ⟨y, hy, by rw [if_neg (by simp [herry]), hcontent]⟩
  obtain ⟨g1, hg1, hxg1, hyg1⟩ := pair_mem_bigBuckets _ _ _ _ hkx hky hxy
  have hqx : quick_hash hq ioErr x
      = (x, some (x.content.length, hq (qhInput x.content))) := by
    unfold quick_hash
    rw [if_neg (by simp [herrx])]
  have hqy : quick_hash hq ioErr y
      = (y, some (x.content.length, hq (qhInput x.content))) := by
    unfold quick_hash
    rw [if_neg (by simp [herry]), hcontent]
  have hxq : quick_hash hq ioErr x ∈ qres :=
    hqperm.mem_iff.2 (List.mem_map_of_mem _ (List.mem_flatten.2 ⟨g1, hg1, hxg1⟩))
  have hyq : quick_hash hq ioErr y ∈ qres :=
    hqperm.mem_iff.2 (List.mem_map_of_mem _ (List.mem_flatten.2 ⟨g1, hg1, hyg1⟩))
  have hkqx : ((x.content.length, hq (qhInput x.content)), x) ∈ qKVs qres :=
    List.mem_filterMap.2 ⟨quick_hash hq ioErr x, hxq, by rw [hqx]; rfl⟩
  have hkqy : ((x.content.length, hq (qhInput x.content)), y) ∈ qKVs qres :=
    List.mem_filterMap.2 ⟨quick_hash hq ioErr y, hyq, by rw [hqy]; rfl⟩
  obtain ⟨g2, hg2, hxg2, hyg2⟩ := pair_mem_bigBuckets _ _ _ _ hkqx hkqy hxy
  have hfx : full_hash hf ioErr x = (x, some (hf x.content)) := by
    unfold full_hash
    rw [if_neg (by simp [herrx])]
  have hfy : full_hash hf ioErr y = (y, some (hf x.content)) := by
    unfold full_hash
    rw [if_neg (by simp [herry]), hcontent]
  have hxf : full_hash hf ioErr x ∈ fres :=
    hfperm.mem_iff.2 (List.mem_map_of_mem _ (List.mem_flatten.2 ⟨g2, hg2, hxg2⟩))
  have hyf : full_hash hf ioErr y ∈ fres :=
    hfperm.mem_iff.2 (List.mem_map_of_mem _ (List.mem_flatten.2 ⟨g2, hg2, hyg2⟩))
  have hkfx : (hf x.content, x) ∈ fKVs fres :=
    List.mem_filterMap.2 ⟨full_hash hf ioErr x, hxf, by rw [hfx]; rfl⟩
  have hkfy : (hf x.content, y) ∈ fKVs fres :=
    List.mem_filterMap.2 ⟨full_hash hf ioErr y, hyf, by rw [hfy]; rfl⟩
  exact pair_mem_bigBuckets _ _ _ _ hkfx hkfy hxy

/-- Witness for `identical_content_same_dupset` with identity digests, a
third same-size non-duplicate file, and submission-order completions. -/
theorem identical_content_same_dupset_witness :
    (⟨"a/1.bin", [7]⟩ : File)
      ∈ [(⟨"a/1.bin", [7]⟩ : File), ⟨"x/2.bin", [9]⟩, ⟨"b/1.bin", [7]⟩]
  ∧ (⟨"b/1.bin", [7]⟩ : File)
      ∈ [(⟨"a/1.bin", [7]⟩ : File), ⟨"x/2.bin", [9]⟩, ⟨"b/1.bin", [7]⟩]
  ∧ (⟨"a/1.bin", [7]⟩ : File).path ≠ (⟨"b/1.bin", [7]⟩ : File).path
  ∧ (⟨"a/1.bin", [7]⟩ : File).content = (⟨"b/1.bin", [7]⟩ : File).content
  ∧ ∃ g ∈ duplicatesOf (fullSubmitted (fun c => c) (fun _ => false)
        (quickSubmitted (fun c => c) (fun _ => false)
          [(⟨"a/1.bin", [7]⟩ : File), ⟨"x/2.bin", [9]⟩, ⟨"b/1.bin", [7]⟩])),
      (⟨"a/1.bin", [7]⟩ : File) ∈ g ∧ (⟨"b/1.bin", [7]⟩ : File) ∈ g := by
  refine ⟨by decide, by decide, by decide, rfl, ?_⟩
  exact identical_content_same_dupset (fun c => c) (fun c => c) (fun _ => false)
    [(⟨"a/1.bin", [7]⟩ : File), ⟨"x/2.bin", [9]⟩, ⟨"b/1.bin", [7]⟩]
    ⟨"a/1.bin", [7]⟩ ⟨"b/1.bin", [7]⟩ (by decide) (by decide) (by decide) rfl rfl rfl
    _ (List.Perm.refl _) _ (List.Perm.refl _)

/-- C1 fails on the code: the keeper is `group[0]` of the `fmap` bucket,
which lists members in full-hash completion order (`as_completed`) — no
sort is applied.  For two identical files `a/1.bin` and `b/1.bin`: when the
quick-hash results arrive reversed (a legal completion order, witnessed as
a permutation of the submitted order) and the full-hash results arrive in
submission order, the DuplicateSet comes out `[b/1.bin, a/1.bin]` and the
keeper is `b/1.bin`, although `a/1.bin` is lexicographically smaller; with
both stages completing in submission order the same tree yields keeper
`a/1.bin` — the choice also depends on completion order. -/
theorem keeper_not_lex_smallest :
    List.Perm
      ((quickSubmitted (fun c => c) (fun _ => false)
        [(⟨"a/1.bin", [7]⟩ : File), ⟨"b/1.bin", [7]⟩]).reverse)
      (quickSubmitted (fun c => c) (fun _ => false)
        [(⟨"a/1.bin", [7]⟩ : File), ⟨"b/1.bin", [7]⟩])
  ∧ duplicatesOf (fullSubmitted (fun c => c) (fun _ => false)
      ((quickSubmitted (fun c => c) (fun _ => false)
        [(⟨"a/1.bin", [7]⟩ : File), ⟨"b/1.bin", [7]⟩]).reverse))
      = [[⟨"b/1.bin", [7]⟩, ⟨"a/1.bin", [7]⟩]]
  ∧ keeperOf [(⟨"b/1.bin", [7]⟩ : File), ⟨"a/1.bin", [7]⟩] = ⟨"b/1.bin", [7]⟩
  ∧ ("a/1.bin" : String).data < ("b/1.bin" : String).data
  ∧ duplicatesOf (fullSubmitted (fun c => c) (fun _ => false)
      (quickSubmitted (fun c => c) (fun _ => false)
        [(⟨"a/1.bin", [7]⟩ : File), ⟨"b/1.bin", [7]⟩]))
      = [[⟨"a/1.bin", [7]⟩, ⟨"b/1.bin", [7]⟩]]
  ∧ (⟨"b/1.bin", [7]⟩ : File) ≠ ⟨"a/1.bin", [7]⟩ := by
  refine ⟨List.reverse_perm _, ?_, ?_, ?_, ?_, ?_⟩ <;> decide

/-- C1 amended: a confirmed DuplicateSet lists its members in the
completion order of the full-hash stage — it equals the arrival-ordered
successful results carrying its digest — so the keeper `group[0]` is the
member whose full hash completed first, a choice that depends on completion
order rather than on a sort of the path strings. -/
theorem keeper_is_first_full_hash_arrival {β : Type} [DecidableEq β]
    (fres : List (File × Option β)) (g : List File)
    (hg : g ∈ duplicatesOf fres) :
    ∃ k : β, g = ((fKVs fres).filter (fun kv => decide (kv.1 = k))).map (fun kv => kv.2)
      ∧ keeperOf g = keeperOf (((fKVs fres).filter (fun kv => decide (kv.1 = k))).map
          (fun kv => kv.2))
      ∧ 1 < g.length := by
  unfold duplicatesOf buildFMap at hg
  obtain ⟨k, hk, hlen⟩ := mem_bigBuckets_foldInsert hg
  exact ⟨k, hk, by rw [← hk], hlen⟩

/-- Witness for `keeper_is_first_full_hash_arrival` on a concrete
completion order in which `b/1.bin` finished first. -/
theorem keeper_is_first_full_hash_arrival_witness :
    [(⟨"b/1.bin", [7]⟩ : File), ⟨"a/1.bin", [7]⟩]
      ∈ duplicatesOf [((⟨"b/1.bin", [7]⟩ : File), some [7]),
          ((⟨"a/1.bin", [7]⟩ : File), some [7])]
  ∧ ∃ k : List Nat,
      [(⟨"b/1.bin", [7]⟩ : File), ⟨"a/1.bin", [7]⟩]
        = ((fKVs [((⟨"b/1.bin", [7]⟩ : File), some [7]),
              ((⟨"a/1.bin", [7]⟩ : File), some [7])]).filter
            (fun kv => decide (kv.1 = k))).map (fun kv => kv.2)
      ∧ keeperOf [(⟨"b/1.bin", [7]⟩ : File), ⟨"a/1.bin", [7]⟩]
          = keeperOf (((fKVs [((⟨"b/1.bin", [7]⟩ : File), some [7]),
              ((⟨"a/1.bin", [7]⟩ : File), some [7])]).filter
              (fun kv => decide (kv.1 = k))).map (fun kv => kv.2))
      ∧ 1 < ([(⟨"b/1.bin", [7]⟩ : File), ⟨"a/1.bin", [7]⟩] : List File).length := by
  refine ⟨by decide, ?_⟩
  exact keeper_is_first_full_hash_arrival
    [((⟨"b/1.bin", [7]⟩ : File), some [7]), ((⟨"a/1.bin", [7]⟩ : File), some [7])]
    [(⟨"b/1.bin", [7]⟩ : File), ⟨"a/1.bin", [7]⟩] (by decide)

end DupClean
